import Mathlib

/-!
Shallow embedding of the SimpleNN logged-bandit-feedback pipeline
(src/SimpleNN/data.py and src/SimpleNN/__main__.py): the log parser,
dictionary-mode feature vectorizer, pickle-memoized dataset loader,
pool-grouped batch iterator, and the IPS test/loss estimator.

Conventions.  Python ints are ℤ, Python floats are ℚ (exact arithmetic:
the properties under study are not about rounding error); the IEEE
non-finite values that can appear in the estimator's final divisions are
modelled by the EFloat type.  A Python exception is Except.error ();
exception propagation is written as explicit matches on Except values.
String primitives (split, strip, substring test, int/float parsing) are
implemented structurally over the character list so that they evaluate
inside the kernel; each mirrors the Python primitive it names.
-/

namespace SimpleNN

/-- Characters of s split at every occurrence of sep, keeping empty
pieces, as Python s.split(sep) does for a one-character separator. -/
def splitOnCharAux (sep : Char) : List Char → List Char → List (List Char)
  | [], cur => [cur.reverse]
  | c :: rest, cur =>
    if c = sep then cur.reverse :: splitOnCharAux sep rest []
    else splitOnCharAux sep rest (c :: cur)

/-- Python s.split(sep) for a one-character separator sep. -/
def pySplitSep (s : String) (sep : Char) : List String :=
  (splitOnCharAux sep s.data []).map (fun l => String.mk l)

/-- Python s.split() with no argument: split on whitespace runs and drop
the empty pieces.  The strings fed to it here are single-space
separated, so splitting at the space character is exact. -/
def pySplit (s : String) : List String :=
  ((splitOnCharAux ' ' s.data []).filter (fun l => l ≠ [])).map
    (fun l => String.mk l)

/-- Python c in s for a one-character c. -/
def strContains (s : String) (c : Char) : Bool :=
  s.data.any (fun d => d = c)

/-- Python pat in s: substring containment. -/
def strContainsSub (s pat : String) : Bool :=
  s.data.tails.any (fun t => pat.data.isPrefixOf t)

/-- Python s.strip(): drop whitespace from both ends. -/
def strTrim (s : String) : String :=
  String.mk
    (((s.data.dropWhile Char.isWhitespace).reverse.dropWhile
      Char.isWhitespace).reverse)

/-- Digits of a decimal numeral to a natural number; none when empty or
when a non-digit character appears. -/
def parseDigits (l : List Char) : Option ℕ :=
  if l.isEmpty then none
  else if l.all Char.isDigit then
    some (l.foldl (fun a c => 10 * a + (c.toNat - 48)) 0)
  else none

/-- Python int(s) on a decimal string, minus sign allowed; a non-numeric
string raises ValueError.  (Python additionally strips whitespace and
accepts a plus sign; the log tokens exercised here have neither.) -/
def pyInt (s : String) : Except Unit ℤ :=
  match s.data with
  | '-' :: rest =>
    match parseDigits rest with
    | some n => Except.ok (-(n : ℤ))
    | none => Except.error ()
  | l =>
    match parseDigits l with
    | some n => Except.ok ((n : ℤ))
    | none => Except.error ()

/-- Python float(s) on a plain decimal literal such as 0.5, 1.0, 3 or
-2.25 (the only shapes appearing in the score fields of the log
format); anything else raises ValueError. -/
def pyFloat (s : String) : Except Unit ℚ :=
  let neg : Bool := match s.data with | '-' :: _ => true | _ => false
  let body : List Char := if neg then s.data.drop 1 else s.data
  let sgn : ℚ := if neg then -1 else 1
  match splitOnCharAux '.' body [] with
  | [a] =>
    match parseDigits a with
    | some n => Except.ok (sgn * n)
    | none => Except.error ()
  | [a, b] =>
    match (if a.isEmpty then some 0 else parseDigits a),
          (if b.isEmpty then some 0 else parseDigits b) with
    | some na, some nb =>
      if a.isEmpty ∧ b.isEmpty then Except.error ()
      else Except.ok (sgn * ((na : ℚ) + (nb : ℚ) / (10 : ℚ) ^ b.length))
    | _, _ => Except.error ()
  | _ => Except.error ()

/-- Python round() on a float: round half to even. -/
def pyRound (q : ℚ) : ℤ :=
  let f : ℤ := ⌊q⌋
  let r : ℚ := q - f
  if r < 1 / 2 then f
  else if 1 / 2 < r then f + 1
  else if f % 2 = 0 then f else f + 1

/-- Python destructuring [a, b] = l: ValueError unless exactly two items. -/
def two {α : Type} (l : List α) : Except Unit (α × α) :=
  match l with
  | [a, b] => Except.ok (a, b)
  | _ => Except.error ()

/-- Python destructuring [a, b, c] = l: ValueError unless exactly three. -/
def three {α : Type} (l : List α) : Except Unit (α × α × α) :=
  match l with
  | [a, b, c] => Except.ok (a, b, c)
  | _ => Except.error ()

/-- Python list item assignment v[i] = x with negative-index semantics:
indices 0 ≤ i < len(v) and -len(v) ≤ i < 0 write, anything else raises
IndexError. -/
def pySet (v : List ℤ) (i : ℤ) (x : ℤ) : Except Unit (List ℤ) :=
  if 0 ≤ i ∧ i < (v.length : ℤ) then Except.ok (v.set i.toNat x)
  else if -(v.length : ℤ) ≤ i ∧ i < 0 then
    Except.ok (v.set ((v.length : ℤ) + i).toNat x)
  else Except.error ()

/-- Exception-or-value equality is decidable when both sides are. -/
instance instDecEqExcept {ε α : Type} [DecidableEq ε] [DecidableEq α] :
    DecidableEq (Except ε α) := fun a b =>
  match a, b with
  | Except.ok x, Except.ok y =>
    if h : x = y then isTrue (by rw [h]) else isFalse (by simp [h])
  | Except.error x, Except.error y =>
    if h : x = y then isTrue (by rw [h]) else isFalse (by simp [h])
  | Except.ok _, Except.error _ => isFalse (by simp)
  | Except.error _, Except.ok _ => isFalse (by simp)

/-- Feature dictionary loaded from JSON: stringified feature-id to
(stringified category value to dense index), as used by
Sample.get_category_index. -/
abbrev FeatureDict : Type := String → Option (String → Option ℤ)

/-- Sample.get_category_index (data.py lines 86-90): indexing
self.feature_dict[str(feature)] raises KeyError when the feature id is
absent; otherwise the category lookup yields an index or None. -/
def get_category_index (fd : FeatureDict) (feature category : ℤ) :
    Except Unit (Option ℤ) :=
  match fd (toString feature) with
  | none => Except.error ()
  | some m => Except.ok (m (toString category))

/-- The weight-stripping step of the categorical branch: if ":" occurs in
the raw category value, keep only the part before the first ":". -/
def catValue (value : String) : String :=
  if strContains value ':' then (pySplitSep value ':').headI else value

/-- The numeric branch of the loop body of Sample.features_to_vector
(data.py lines 55-57): tokens carrying ":" but no "_" write the parsed
value at slot id - 1. -/
def numericStep (v : List ℤ) (f : String) : Except Unit (List ℤ) :=
  if strContains f ':' ∧ ¬ strContains f '_' then
    match two (pySplitSep f ':') with
    | Except.error e => Except.error e
    | Except.ok (ns, vs) =>
      match pyInt ns, pyInt vs with
      | Except.ok n, Except.ok x => pySet v (n - 1) x
      | Except.error e, _ => Except.error e
      | _, Except.error e => Except.error e
  else Except.ok v

/-- The categorical branch of the loop body of Sample.features_to_vector
(data.py lines 58-63): tokens carrying "_" look the category up in the
feature dictionary and write the dense index at slot id - 1 when found,
leaving the vector untouched when the lookup yields None. -/
def categoricalStep (fd : FeatureDict) (v : List ℤ) (f : String) :
    Except Unit (List ℤ) :=
  if strContains f '_' then
    match two (pySplitSep f '_') with
    | Except.error e => Except.error e
    | Except.ok (ns, vs) =>
      match pyInt ns, pyInt (catValue vs) with
      | Except.ok n, Except.ok c =>
        (match get_category_index fd n c with
         | Except.error e => Except.error e
         | Except.ok (some idx) => pySet v (n - 1) idx
         | Except.ok none => Except.ok v)
      | Except.error e, _ => Except.error e
      | _, Except.error e => Except.error e
  else Except.ok v

/-- One iteration of the loop body of Sample.features_to_vector on the
current vector v and token f.  The two ifs are sequential as in the
source; a token never satisfies both guards. -/
def featureStep (fd : FeatureDict) (v : List ℤ) (f : String) :
    Except Unit (List ℤ) :=
  match numericStep v f with
  | Except.error e => Except.error e
  | Except.ok v1 => categoricalStep fd v1 f

/-- The token loop of Sample.features_to_vector, one token at a time; a
raised exception aborts the whole call. -/
def vecFold (fd : FeatureDict) : List ℤ → List String → Except Unit (List ℤ)
  | v, [] => Except.ok v
  | v, t :: ts =>
    match featureStep fd v t with
    | Except.error e => Except.error e
    | Except.ok v1 => vecFold fd v1 ts

/-- Sample.features_to_vector (data.py lines 52-64): start from
[0] * 35 and process each whitespace-separated token in order. -/
def features_to_vector (fd : FeatureDict) (features : String) :
    Except Unit (List ℤ) :=
  vecFold fd (List.replicate 35 0) (pySplit features)

/-- A finalized Sample (data.py class Sample after done() ran): the raw
summary line and product lines plus the fields done() fills in. -/
structure Sample where
  summary : String
  products : List String
  click : ℤ
  propensity : ℚ
  product_vecs : List (List ℤ)
deriving DecidableEq

/-- A Sample still being accumulated by the parser: only the summary
line and the product lines collected so far. -/
structure PendingSample where
  summary : String
  products : List String
deriving DecidableEq

/-- Python p.split(sep)[-1]: the last piece of a split (split results
are never empty, so the default is never consulted). -/
def lastPart (s : String) (sep : Char) : String :=
  (pySplitSep s sep).getLastD s

/-- The feature vectors of the products after the first, in order; the
summary tokens are prefixed to each product's feature tokens exactly as
in the source. -/
def restVecs (fd : FeatureDict) (summary : String) :
    List String → Except Unit (List (List ℤ))
  | [] => Except.ok []
  | p :: ps =>
    match features_to_vector fd (summary ++ (" ") ++ lastPart p '|') with
    | Except.error e => Except.error e
    | Except.ok v =>
      match restVecs fd summary ps with
      | Except.error e => Except.error e
      | Except.ok vs => Except.ok (v :: vs)

/-- Sample.done (data.py lines 28-50), dictionary mode (hasher is None):
click and propensity come from the score field of the first product;
each product's feature tokens are vectorized behind the summary
tokens. -/
def done (fd : FeatureDict) (ps : PendingSample) : Except Unit Sample :=
  let summary := lastPart ps.summary '|'
  match ps.products with
  | [] => Except.error ()
  | p0 :: rest =>
    match two (pySplitSep p0 '|') with
    | Except.error e => Except.error e
    | Except.ok (score, feats) =>
      match three (pySplitSep score ':') with
      | Except.error e => Except.error e
      | Except.ok (_lbl, clickS, propS) =>
        match pyFloat clickS, pyFloat propS with
        | Except.ok cq, Except.ok pq =>
          (match features_to_vector fd (summary ++ (" ") ++ feats) with
           | Except.error e => Except.error e
           | Except.ok firstVec =>
             match restVecs fd summary rest with
             | Except.error e => Except.error e
             | Except.ok vs =>
               Except.ok
                 ⟨ps.summary, ps.products, pyRound cq, pq, firstVec :: vs⟩)
        | Except.error e, _ => Except.error e
        | _, Except.error e => Except.error e

/-- The line loop of CriteoDataset.load (data.py lines 164-187):
i is the running raw line index, cur the sample being accumulated, acc
the finalized samples in reverse order.  A boundary line finalizes the
pending sample and starts a new one; the sample still pending when the
lines run out, or when the stop index is hit, is dropped exactly as in
the source. -/
def parseLoop (fd : FeatureDict) (stop start : ℤ) :
    List String → ℕ → Option PendingSample → List Sample →
    Except Unit (List Sample)
  | [], _, _, acc => Except.ok acc.reverse
  | line :: rest, i, cur, acc =>
    let l := strTrim line
    if (i : ℤ) < start then parseLoop fd stop start rest (i + 1) cur acc
    else if stop ≠ -1 ∧ stop ≤ (i : ℤ) then Except.ok acc.reverse
    else if l = ("") then parseLoop fd stop start rest (i + 1) cur acc
    else if strContainsSub l ("shared") then
      match cur with
      | some s =>
        (match done fd s with
         | Except.error e => Except.error e
         | Except.ok d =>
           parseLoop fd stop start rest (i + 1) (some ⟨l, []⟩) (d :: acc))
      | none => parseLoop fd stop start rest (i + 1) (some ⟨l, []⟩) acc
    else
      match cur with
      | some s =>
        parseLoop fd stop start rest (i + 1)
          (some ⟨s.summary, s.products ++ [l]⟩) acc
      | none => parseLoop fd stop start rest (i + 1) cur acc

/-- The parse branch of CriteoDataset.load on the file's lines, with the
stop and start indices of the source (stop = -1 disables the cutoff). -/
def parseLines (fd : FeatureDict) (lines : List String) (stop start : ℤ) :
    Except Unit (List Sample) :=
  parseLoop fd stop start lines 0 none []

/-- Number of session-boundary marker lines: lines whose stripped text
contains the substring "shared". -/
def countMarkers (lines : List String) : ℕ :=
  (lines.filter (fun l => strContainsSub (strTrim l) ("shared"))).length

/-- The on-disk pickle store keyed exactly as data.py line 158 keys the
artifact file name: by (source path, stop index).  pickle round-trips
the session list by content, so the artifact holds a session list. -/
abbrev PickleStore : Type := List ((String × ℤ) × List Sample)

/-- os.path.exists plus pickle.load: the artifact for a key, if any. -/
def lookupStore : PickleStore → String × ℤ → Option (List Sample)
  | [], _ => none
  | (k, v) :: rest, key => if k = key then some v else lookupStore rest key

/-- CriteoDataset.load (data.py lines 157-188): read the memoized
artifact when it exists, otherwise parse the file's lines and write the
artifact.  The file system is a map from path to lines. -/
def criteo_load (store : PickleStore) (files : String → List String)
    (fd : FeatureDict) (path : String) (stop start : ℤ) :
    Except Unit (List Sample × PickleStore) :=
  match lookupStore store (path, stop) with
  | some ss => Except.ok (ss, store)
  | none =>
    match parseLines fd (files path) stop start with
    | Except.error e => Except.error e
    | Except.ok ss => Except.ok (ss, ((path, stop), ss) :: store)

/-- Insertion into the per-pool-size table, keeping first-encounter
order of keys and arrival order inside a group, exactly as
defaultdict(list) with append does (data.py lines 96-98). -/
def insertGroup (gs : List (ℕ × List Sample)) (k : ℕ) (s : Sample) :
    List (ℕ × List Sample) :=
  match gs with
  | [] => [(k, [s])]
  | (k0, l) :: rest =>
    if k0 = k then (k0, l ++ [s]) :: rest
    else (k0, l) :: insertGroup rest k s

/-- BatchIterator.__init__ grouping (data.py lines 96-99): partition the
dataset by len(s.products), keeping encounter order. -/
def groupByPoolSize (ds : List Sample) : List (ℕ × List Sample) :=
  ds.foldl (fun gs s => insertGroup gs s.products.length s) []

/-- All sessions of a group table in group-then-arrival order. -/
def flatGroups (gs : List (ℕ × List Sample)) : List Sample :=
  (gs.map (fun g => g.2)).flatten

/-- The slicing loop for i in range(0, len(data), B) with data[i:i+B]
(data.py lines 107-108), fuelled by the list length; faithful for
B ≥ 1, where each step consumes at least one element. -/
def chunksAux {α : Type} (B : ℕ) : ℕ → List α → List (List α)
  | _, [] => []
  | 0, _ :: _ => []
  | Nat.succ fuel, a :: l => (a :: l).take B :: chunksAux B fuel ((a :: l).drop B)

/-- data[0:B], data[B:2B], ... for one shuffled group list. -/
def chunks {α : Type} (B : ℕ) (l : List α) : List (List α) :=
  chunksAux B l.length l

/-- One epoch pass of BatchIterator.__iter__ (data.py lines 103-117):
the groups are visited in table order and each group's list, already
shuffled in place by random.shuffle, is sliced into chunks of at most B
sessions.  The shuffle is modelled by quantifying over any per-group
permutation of groupByPoolSize's table. -/
def epochBatches (B : ℕ) (shuffled : List (ℕ × List Sample)) :
    List (List Sample) :=
  (shuffled.map (fun g => chunks B g.2)).flatten

/-- One scored session of an evaluation batch: output[i, 0, 0] (the
model's score for the first, shown product), the click label and the
logged propensity, as consumed by run_test_set. -/
structure EvalRow where
  out0 : ℚ
  click : ℚ
  propensity : ℚ
deriving DecidableEq

/-- rectified_label of run_test_set (main.py lines 21-29):
torch.where(click == 1, zeros, ones), elementwise. -/
def rectified_label_test (click : ℚ) : ℚ :=
  if click = 1 then 0 else 1

/-- rectified_label of calc_loss (main.py lines 55-60):
torch.where(click == 1, zeros, ones), elementwise. -/
def rectified_label_loss (click : ℚ) : ℚ :=
  if click = 1 then 0 else 1

/-- The per-session normalizer term o of both paths (main.py lines
31-36 and 62-67): 10 where click == 1, else 1. -/
def o_value (click : ℚ) : ℚ :=
  if click = 1 then 10 else 1

/-- importance weight output[:, 0, 0] / propensity of one session. -/
def importance_weight (r : EvalRow) : ℚ :=
  r.out0 / r.propensity

/-- One batch's contribution to the running R sum (main.py line 40). -/
def batchR (b : List EvalRow) : ℚ :=
  (b.map (fun r => rectified_label_test r.click * importance_weight r)).sum

/-- One batch's contribution to the running C sum (main.py line 43). -/
def batchC (b : List EvalRow) : ℚ :=
  (b.map (fun r => importance_weight r)).sum

/-- One batch's contribution to the running N sum (main.py line 37). -/
def batchN (b : List EvalRow) : ℚ :=
  (b.map (fun r => o_value r.click)).sum

/-- Running R sum over all batches of a test pass. -/
def accR (bs : List (List EvalRow)) : ℚ := (bs.map batchR).sum

/-- Running C sum over all batches of a test pass. -/
def accC (bs : List (List EvalRow)) : ℚ := (bs.map batchC).sum

/-- Running N sum over all batches of a test pass. -/
def accN (bs : List (List EvalRow)) : ℚ := (bs.map batchN).sum

/-- A float value as IEEE division can produce it: finite, an infinity,
or NaN.  Signed zero is not modelled; it plays no role here. -/
inductive EFloat where
  | nan : EFloat
  | inf : EFloat
  | neginf : EFloat
  | val : ℚ → EFloat
deriving DecidableEq

/-- Float division of finite operands: b = 0 gives NaN for a = 0 and a
signed infinity otherwise, exactly the IEEE behaviour torch floats
show; otherwise the exact quotient. -/
def efDiv (a b : ℚ) : EFloat :=
  if b = 0 then
    (if a = 0 then EFloat.nan else if 0 < a then EFloat.inf else EFloat.neginf)
  else EFloat.val (a / b)

/-- Float division on possibly non-finite operands. -/
def efDivE : EFloat → EFloat → EFloat
  | EFloat.nan, _ => EFloat.nan
  | _, EFloat.nan => EFloat.nan
  | EFloat.val a, EFloat.val b => efDiv a b
  | EFloat.val _, EFloat.inf => EFloat.val 0
  | EFloat.val _, EFloat.neginf => EFloat.val 0
  | EFloat.inf, EFloat.val b => if b < 0 then EFloat.neginf else EFloat.inf
  | EFloat.neginf, EFloat.val b => if b < 0 then EFloat.inf else EFloat.neginf
  | _, _ => EFloat.nan

/-- Multiplication by the positive display constant 10 ** 4, which maps
each non-finite value to itself. -/
def efScale (x : EFloat) (c : ℚ) : EFloat :=
  match x with
  | EFloat.val q => EFloat.val (q * c)
  | other => other

/-- What a test pass reports.  The accumulators R, C, N start as the
Python int 0 (main.py lines 13-15); when no batch is yielded they are
still ints at line 45 and R / N raises ZeroDivisionError.  Otherwise
they are float tensors and the final divisions follow float
semantics. -/
inductive EvalOutcome where
  | zeroDivisionError : EvalOutcome
  | printed : EFloat → EFloat → EFloat → EvalOutcome
deriving DecidableEq

/-- run_test_set (main.py lines 10-50) over the batches of a test pass:
accumulate R, C, N, then report R = (R / N) * 10 ** 4, C = C / N and
R_div_C = R / C. -/
def run_test_set (bs : List (List EvalRow)) : EvalOutcome :=
  if bs = [] then EvalOutcome.zeroDivisionError
  else
    let R := efScale (efDiv (accR bs) (accN bs)) (10 ^ 4)
    let C := efDiv (accC bs) (accN bs)
    EvalOutcome.printed R C (efDivE R C)

/-- Well-formedness of one feature token relative to a dictionary: the
branch the token selects parses, its feature id lies in 1..35, and for
a categorical token the dictionary knows the feature id.  This is the
precondition under which a slot write is guaranteed to land in
bounds. -/
def tokenOk (fd : FeatureDict) (f : String) : Prop :=
  (strContains f ':' = true ∧ strContains f '_' = false →
    ∃ ns vs n x, two (pySplitSep f ':') = Except.ok (ns, vs) ∧
      pyInt ns = Except.ok n ∧ pyInt vs = Except.ok x ∧ 1 ≤ n ∧ n ≤ 35) ∧
  (strContains f '_' = true →
    ∃ ns vs n c, two (pySplitSep f '_') = Except.ok (ns, vs) ∧
      pyInt ns = Except.ok n ∧ pyInt (catValue vs) = Except.ok c ∧
      1 ≤ n ∧ n ≤ 35 ∧ ∃ m, fd (toString n) = some m)

/-- A category map for feature id 3 knowing only category 5. -/
def wCatMap : String → Option ℤ :=
  fun c => if c = ("5") then some 2 else none

/-- A feature dictionary with feature id 3 as its only key. -/
def wDict : FeatureDict :=
  fun s => if s = ("3") then some wCatMap else none

/-- Log lines with one boundary marker and one product line and no
trailing marker: the pending session is dropped by the loader. -/
def c2lines : List String :=
  [("shared s"), ("l:0.0:0.5|1:3")]

/-- Log lines with two boundary markers; the first session is emitted
when the second marker arrives, the second is pending at end of stream. -/
def c2lines2 : List String :=
  [("shared s"), ("l:1.0:0.5|1:3"), ("shared t")]

/-- The one session the loader emits from c2lines2. -/
def c2sample : Sample :=
  ⟨("shared s"), [("l:1.0:0.5|1:3")], 1, 1 / 2,
    [(List.replicate 35 0).set 0 3]⟩

/-- One batch of two unclicked sessions with importance weights 1 and 2. -/
def c3batch : List (List EvalRow) :=
  [[⟨1, 0, 1⟩, ⟨2, 0, 1⟩]]

/-- One batch of a single unclicked session whose model score is 0, so
the accumulated C of the pass is 0. -/
def c4batch : List (List EvalRow) :=
  [[⟨0, 0, 1⟩]]

/-- Two batches with nonzero accumulated weights, exercising the ratio
with a normalizer accumulated across batches. -/
def c9batch : List (List EvalRow) :=
  [[⟨1, 1, 1⟩], [⟨1, 0, 1⟩, ⟨2, 0, 1⟩]]

/-- A finalized session with a pool of two products. -/
def c5sampleA : Sample :=
  ⟨("shared a"), [("p|1:1"), ("q|1:2")], 0, 1, [[1], [2]]⟩

/-- A finalized session with a pool of three products. -/
def c5sampleB : Sample :=
  ⟨("shared b"), [("p|1:1"), ("q|1:2"), ("r|1:3")], 1, 1 / 2,
    [[1], [2], [3]]⟩

/-- A second two-product session, giving the two-product group size 2. -/
def c5sampleC : Sample :=
  ⟨("shared c"), [("p|1:4"), ("q|1:5")], 0, 1 / 4, [[4], [5]]⟩

/-- A dataset with two pool sizes: group 2 holds two sessions, group 3
holds one. -/
def c5ds : List Sample :=
  [c5sampleA, c5sampleB, c5sampleC]

/-- A one-file file system for the loader: two boundary markers, so one
session is emitted. -/
def c7files : String → List String :=
  fun p => if p = ("train") then c2lines2 else []

/-! Helper lemmas. -/

theorem efDiv_of_ne (a b : ℚ) (hb : b ≠ 0) : efDiv a b = EFloat.val (a / b) := by
  rw [efDiv, if_neg hb]

theorem run_test_set_eq (bs : List (List EvalRow)) (hbs : bs ≠ [])
    (hN : accN bs ≠ 0) :
    run_test_set bs = EvalOutcome.printed
      (EFloat.val (accR bs / accN bs * 10 ^ 4))
      (EFloat.val (accC bs / accN bs))
      (efDivE (EFloat.val (accR bs / accN bs * 10 ^ 4))
        (EFloat.val (accC bs / accN bs))) := by
  rw [run_test_set, if_neg hbs, efDiv_of_ne _ _ hN, efDiv_of_ne _ _ hN, efScale]

/-! Claim theorems. -/

/-- C1: the claim reads rectified_label as 1 for click == 1 and 0
otherwise, in both the evaluation path and the loss path.  Both paths
in the source compute the opposite: where(click == 1, zeros, ones), so
at the failing input click = 1 the label is 0 and at click = 0 it
is 1. -/
theorem rectified_label_inverted :
    rectified_label_test 1 = 0 ∧ rectified_label_loss 1 = 0 ∧
    rectified_label_test 0 = 1 ∧ rectified_label_loss 0 = 1 := by
  refine ⟨?_, ?_, ?_, ?_⟩ <;>
    norm_num [rectified_label_test, rectified_label_loss]

/-- C3 counterexample: on a concrete one-batch pass with accumulated
importance-weight sum 3 and N = 2, the estimator reports C = 3 / 2, not
the sum 3, and R = 15000, not 10 ^ 4 times the accumulated
rectified-label-weighted sum 3. -/
theorem reported_C_not_weight_sum :
    run_test_set c3batch = EvalOutcome.printed (EFloat.val 15000)
      (EFloat.val (3 / 2)) (EFloat.val 10000) ∧
    accC c3batch = 3 ∧ accR c3batch = 3 ∧
    (3 : ℚ) / 2 ≠ 3 ∧ (15000 : ℚ) ≠ 10 ^ 4 * 3 := by
  refine ⟨?_, ?_, ?_, by norm_num, by norm_num⟩ <;>
    norm_num [run_test_set, c3batch, accR, accC, accN, batchR, batchC,
      batchN, rectified_label_test, o_value, importance_weight, efDiv,
      efScale, efDivE]

/-- C3 amended: the estimator reports C = (Σ importance_weight) / N and
R = 10 ^ 4 * (Σ rectified_label * importance_weight) / N, where N is
the accumulated per-session normalizer (10 for click == 1, else 1), and
R_over_C = R / C. -/
theorem reported_R_C_normalized (bs : List (List EvalRow))
    (hN : accN bs ≠ 0) (hC : accC bs ≠ 0) :
    run_test_set bs = EvalOutcome.printed
      (EFloat.val (accR bs / accN bs * 10 ^ 4))
      (EFloat.val (accC bs / accN bs))
      (EFloat.val (accR bs / accN bs * 10 ^ 4 / (accC bs / accN bs))) := by
  have hbs : bs ≠ [] := by rintro rfl; simp [accN] at hN
  rw [run_test_set_eq bs hbs hN, efDivE, efDiv_of_ne]
  exact div_ne_zero hC hN

/-- C3 amended, instantiated at the concrete batch of the
counterexample. -/
theorem reported_R_C_normalized_witness :
    run_test_set c3batch = EvalOutcome.printed
      (EFloat.val (accR c3batch / accN c3batch * 10 ^ 4))
      (EFloat.val (accC c3batch / accN c3batch))
      (EFloat.val (accR c3batch / accN c3batch * 10 ^ 4 /
        (accC c3batch / accN c3batch))) :=
  reported_R_C_normalized c3batch
    (by norm_num [c3batch, accN, batchN, o_value])
    (by norm_num [c3batch, accC, batchC, importance_weight])

/-- C4 counterexample: on the empty evaluation set the accumulators are
still Python ints and the final division raises ZeroDivisionError, and
on a concrete nonempty pass whose accumulated C is zero the evaluator
prints NaN as R / C through its normal report, with no distinguishable
undefined-metric result in either case. -/
theorem degenerate_pass_counterexample :
    run_test_set [] = EvalOutcome.zeroDivisionError ∧
    run_test_set c4batch = EvalOutcome.printed (EFloat.val 0)
      (EFloat.val 0) EFloat.nan := by
  constructor
  · rw [run_test_set, if_pos rfl]
  · norm_num [run_test_set, c4batch, accR, accC, accN, batchR, batchC,
      batchN, rectified_label_test, o_value, importance_weight, efDiv,
      efScale, efDivE]

/-- C4 amended: when the evaluation set is empty the evaluator raises
ZeroDivisionError, and when the accumulated C (and hence R) of a
nonempty pass is zero it prints NaN as R / C through its normal report;
no distinguishable undefined-metric signal exists in either case. -/
theorem degenerate_pass_prints_nan (bs : List (List EvalRow))
    (hN : accN bs ≠ 0) (hC : accC bs = 0) (hR : accR bs = 0) :
    run_test_set [] = EvalOutcome.zeroDivisionError ∧
    run_test_set bs = EvalOutcome.printed (EFloat.val 0) (EFloat.val 0)
      EFloat.nan := by
  have hbs : bs ≠ [] := by rintro rfl; simp [accN] at hN
  refine ⟨by rw [run_test_set, if_pos rfl], ?_⟩
  rw [run_test_set_eq bs hbs hN, hC, hR]
  norm_num [efDivE, efDiv]

/-- C4 amended, instantiated at the concrete degenerate batch. -/
theorem degenerate_pass_prints_nan_witness :
    run_test_set c4batch = EvalOutcome.printed (EFloat.val 0)
      (EFloat.val 0) EFloat.nan :=
  (degenerate_pass_prints_nan c4batch
    (by norm_num [c4batch, accN, batchN, o_value])
    (by norm_num [c4batch, accC, batchC, importance_weight])
    (by norm_num [c4batch, accR, batchR, rectified_label_test,
      importance_weight])).2

/-- C9: with nonzero accumulated C and N, the reported ratio R / C
equals 10 ^ 4 times the accumulated rectified-label-weighted sum
divided by the accumulated importance-weight sum — the division of both
R and C by N cancels. -/
theorem ratio_independent_of_N (bs : List (List EvalRow))
    (hN : accN bs ≠ 0) (hC : accC bs ≠ 0) :
    ∃ R C, run_test_set bs = EvalOutcome.printed R C
      (EFloat.val (10 ^ 4 * accR bs / accC bs)) := by
  have hbs : bs ≠ [] := by rintro rfl; simp [accN] at hN
  have hq : accR bs / accN bs * 10 ^ 4 / (accC bs / accN bs) =
      10 ^ 4 * accR bs / accC bs := by
    field_simp
    ring
  refine ⟨EFloat.val (accR bs / accN bs * 10 ^ 4),
    EFloat.val (accC bs / accN bs), ?_⟩
  rw [run_test_set_eq bs hbs hN, efDivE,
    efDiv_of_ne _ _ (div_ne_zero hC hN), hq]

/-- C9, instantiated at a concrete two-batch pass. -/
theorem ratio_independent_of_N_witness :
    ∃ R C, run_test_set c9batch = EvalOutcome.printed R C
      (EFloat.val (10 ^ 4 * accR c9batch / accC c9batch)) :=
  ratio_independent_of_N c9batch
    (by norm_num [c9batch, accN, batchN, o_value])
    (by norm_num [c9batch, accC, batchC, importance_weight])

/-- C6: a categorical token whose category value is absent from the
feature dictionary under its (present) feature id leaves the vector
unchanged — in particular the slot keeps its default 0 — and raises no
exception. -/
theorem unseen_category_defaults (fd : FeatureDict) (m : String → Option ℤ)
    (f ns vs : String) (n c : ℤ)
    (hund : strContains f '_' = true)
    (hsplitU : two (pySplitSep f '_') = Except.ok (ns, vs))
    (hn : pyInt ns = Except.ok n) (hc : pyInt (catValue vs) = Except.ok c)
    (hfd : fd (toString n) = some m) (hm : m (toString c) = none) :
    (∀ v, featureStep fd v f = Except.ok v) ∧
    (pySplit f = [f] →
      features_to_vector fd f = Except.ok (List.replicate 35 0)) := by
  have hstep : ∀ v, featureStep fd v f = Except.ok v := by
    intro v
    have h1 : numericStep v f = Except.ok v := by
      rw [numericStep, if_neg]
      simp [hund]
    simp [featureStep, h1, categoricalStep, hund, hsplitU, hn, hc,
      get_category_index, hfd, hm]
  refine ⟨hstep, fun hs => ?_⟩
  rw [features_to_vector, hs]
  simp [vecFold, hstep]

/-- C6, instantiated: the token 3_7 with a dictionary knowing id 3 but
not category 7 leaves the all-zero vector intact. -/
theorem unseen_category_defaults_witness :
    featureStep wDict (List.replicate 35 0) ("3_7") =
      Except.ok (List.replicate 35 0) ∧
    features_to_vector wDict ("3_7") =
      Except.ok (List.replicate 35 0) := by
  have h := unseen_category_defaults wDict wCatMap ("3_7") ("3") ("7") 3 7
    (by decide) (by decide) (by decide) (by decide)
    (by rw [show toString (3 : ℤ) = ("3") from by decide]; simp [wDict])
    (by rw [show toString (7 : ℤ) = ("7") from by decide]; simp [wCatMap])
  exact ⟨h.1 (List.replicate 35 0), h.2 (by decide)⟩

theorem pySet_length35 (v w : List ℤ) (i x : ℤ) (hv : v.length = 35)
    (h : pySet v i x = Except.ok w) : w.length = 35 := by
  rw [pySet] at h
  split_ifs at h <;> simp at h <;> subst h <;> simp [hv]

theorem pySet_inbounds_ok (v : List ℤ) (i x : ℤ) (h0 : 0 ≤ i)
    (hi : i < (v.length : ℤ)) :
    pySet v i x = Except.ok (v.set i.toNat x) := by
  rw [pySet, if_pos ⟨h0, hi⟩]

theorem pySet_neg_one (v : List ℤ) (x : ℤ) (hv : v.length = 35) :
    pySet v (-1) x = Except.ok (v.set 34 x) := by
  rw [pySet, if_neg (by rw [hv]; omega), if_pos (by rw [hv]; omega)]
  rw [hv]
  rfl

theorem numericStep_eq (v : List ℤ) (f ns vs : String) (n x : ℤ)
    (hcol : strContains f ':' = true) (hund : strContains f '_' = false)
    (hsp : two (pySplitSep f ':') = Except.ok (ns, vs))
    (hn : pyInt ns = Except.ok n) (hx : pyInt vs = Except.ok x) :
    numericStep v f = pySet v (n - 1) x := by
  rw [numericStep, if_pos ⟨by simp [hcol], by simp [hund]⟩]
  simp only [hsp, hn, hx]

theorem categoricalStep_skip (fd : FeatureDict) (v : List ℤ) (f : String)
    (hund : strContains f '_' = false) :
    categoricalStep fd v f = Except.ok v := by
  rw [categoricalStep, if_neg (by simp [hund])]

theorem featureStep_eq_num (fd : FeatureDict) (v : List ℤ)
    (f ns vs : String) (n x : ℤ)
    (hcol : strContains f ':' = true) (hund : strContains f '_' = false)
    (hsp : two (pySplitSep f ':') = Except.ok (ns, vs))
    (hn : pyInt ns = Except.ok n) (hx : pyInt vs = Except.ok x) :
    featureStep fd v f = pySet v (n - 1) x := by
  rw [featureStep, numericStep_eq v f ns vs n x hcol hund hsp hn hx]
  cases hps : pySet v (n - 1) x with
  | error e => rfl
  | ok v1 => exact categoricalStep_skip fd v1 f hund

theorem featureStep_ok (fd : FeatureDict) (v : List ℤ) (f : String)
    (hv : v.length = 35) (hf : tokenOk fd f) :
    ∃ w, featureStep fd v f = Except.ok w ∧ w.length = 35 := by
  cases hund : strContains f '_' with
  | true =>
    have h1 : numericStep v f = Except.ok v := by
      rw [numericStep, if_neg]
      simp [hund]
    obtain ⟨ns, vs, n, c, hsp, hn, hc, h1n, h35, m, hm⟩ := hf.2 hund
    have hset : ∀ u : List ℤ, u.length = 35 → ∀ y : ℤ,
        pySet u (n - 1) y = Except.ok (u.set (n - 1).toNat y) := by
      intro u hu y
      exact pySet_inbounds_ok u (n - 1) y (by omega) (by rw [hu]; omega)
    cases hmc : m (toString c) with
    | none =>
      refine ⟨v, ?_, hv⟩
      simp [featureStep, h1, categoricalStep, hund, hsp, hn, hc,
        get_category_index, hm, hmc]
    | some idx =>
      refine ⟨v.set (n - 1).toNat idx, ?_, by simp [hv]⟩
      simp [featureStep, h1, categoricalStep, hund, hsp, hn, hc,
        get_category_index, hm, hmc, hset v hv idx]
  | false =>
    cases hcol : strContains f ':' with
    | true =>
      obtain ⟨ns, vs, n, x, hsp, hn, hx, h1n, h35⟩ := hf.1 ⟨hcol, hund⟩
      refine ⟨v.set (n - 1).toNat x, ?_, by simp [hv]⟩
      have hset : pySet v (n - 1) x = Except.ok (v.set (n - 1).toNat x) :=
        pySet_inbounds_ok v (n - 1) x (by omega) (by rw [hv]; omega)
      simp [featureStep, numericStep, categoricalStep, hund, hcol, hsp,
        hn, hx, hset]
    | false =>
      refine ⟨v, ?_, hv⟩
      simp [featureStep, numericStep, categoricalStep, hund, hcol]

theorem vecFold_ok (fd : FeatureDict) (ts : List String) :
    ∀ v : List ℤ, v.length = 35 → (∀ t ∈ ts, tokenOk fd t) →
    ∃ w, vecFold fd v ts = Except.ok w ∧ w.length = 35 := by
  induction ts with
  | nil => exact fun v hv _ => ⟨v, rfl, hv⟩
  | cons t ts ih =>
    intro v hv hts
    obtain ⟨w1, hw1, hl1⟩ := featureStep_ok fd v t hv (hts t (by simp))
    obtain ⟨w, hw, hl⟩ := ih w1 hl1 (fun u hu => hts u (by simp [hu]))
    exact ⟨w, by rw [vecFold, hw1]; exact hw, hl⟩

/-- C10: dictionary-mode vectorization is total with a 35-slot result
whenever every token parses and carries a feature id in 1..35 (each
write lands at slot id - 1); a numeric token with feature id 0 does not
raise but writes the last slot, index 34, through Python's negative
indexing; and a feature id above 35 makes the slot write raise
IndexError. -/
theorem features_to_vector_bounds :
    (∀ (fd : FeatureDict) (fs : String),
      (∀ t ∈ pySplit fs, tokenOk fd t) →
      ∃ v, features_to_vector fd fs = Except.ok v ∧ v.length = 35) ∧
    (∀ (fd : FeatureDict) (f ns vs : String) (x : ℤ),
      pySplit f = [f] → strContains f ':' = true →
      strContains f '_' = false →
      two (pySplitSep f ':') = Except.ok (ns, vs) →
      pyInt ns = Except.ok 0 → pyInt vs = Except.ok x →
      features_to_vector fd f =
        Except.ok ((List.replicate 35 0).set 34 x)) ∧
    (∀ (fd : FeatureDict) (v : List ℤ) (f ns vs : String) (n x : ℤ),
      v.length = 35 → strContains f ':' = true →
      strContains f '_' = false →
      two (pySplitSep f ':') = Except.ok (ns, vs) →
      pyInt ns = Except.ok n → pyInt vs = Except.ok x → 35 < n →
      featureStep fd v f = Except.error ()) := by
  refine ⟨?_, ?_, ?_⟩
  · intro fd fs hts
    exact vecFold_ok fd (pySplit fs) (List.replicate 35 0) (by simp) hts
  · intro fd f ns vs x hs hcol hund hsp hn hx
    have hstep : featureStep fd (List.replicate 35 0) f =
        Except.ok ((List.replicate 35 0).set 34 x) := by
      rw [featureStep_eq_num fd _ f ns vs 0 x hcol hund hsp hn hx,
        show (0 - 1 : ℤ) = -1 from by norm_num]
      exact pySet_neg_one (List.replicate 35 0) x (by simp)
    rw [features_to_vector, hs]
    simp only [vecFold, hstep]
  · intro fd v f ns vs n x hv hcol hund hsp hn hx h35
    rw [featureStep_eq_num fd v f ns vs n x hcol hund hsp hn hx,
      pySet, if_neg (by rw [hv]; omega), if_neg (by rw [hv]; omega)]

/-- C10, instantiated at the tokens 3_5 (in-range categorical), 0:7
(numeric id 0) and 36:7 (numeric id above 35). -/
theorem features_to_vector_bounds_witness :
    (∃ v, features_to_vector wDict ("3_5") = Except.ok v ∧
      v.length = 35) ∧
    features_to_vector wDict ("0:7") =
      Except.ok ((List.replicate 35 0).set 34 7) ∧
    featureStep wDict (List.replicate 35 0) ("36:7") =
      Except.error () := by
  refine ⟨features_to_vector_bounds.1 wDict ("3_5") ?_,
    features_to_vector_bounds.2.1 wDict ("0:7") ("0") ("7") 7
      (by decide) (by decide) (by decide) (by decide) (by decide)
      (by decide),
    features_to_vector_bounds.2.2 wDict (List.replicate 35 0) ("36:7")
      ("36") ("7") 36 7 (by simp) (by decide) (by decide) (by decide)
      (by decide) (by decide) (by norm_num)⟩
  intro t ht
  rw [show pySplit ("3_5") = [("3_5")] from by decide] at ht
  simp only [List.mem_singleton] at ht
  subst ht
  refine ⟨fun hcontr => absurd hcontr.2 (by decide), fun _ => ?_⟩
  exact ⟨("3"), ("5"), 3, 5, by decide, by decide, by decide,
    by norm_num, by norm_num, wCatMap,
    by rw [show toString (3 : ℤ) = ("3") from by decide]; simp [wDict]⟩

/-- C8: observed_click and logged_propensity are taken exclusively from
the score field of the first product line — click is the parsed float
rounded to the nearest integer (ties to even, as Python round does) and
propensity the parsed float — and the score fields of the remaining
products never affect either value. -/
theorem first_product_score_determines_labels (fd : FeatureDict)
    (sm p0 : String) (rest : List String)
    (score feats lbl clickS propS : String) (cq pq : ℚ) (out : Sample)
    (hsp : two (pySplitSep p0 '|') = Except.ok (score, feats))
    (hsc : three (pySplitSep score ':') = Except.ok (lbl, clickS, propS))
    (hcq : pyFloat clickS = Except.ok cq)
    (hpq : pyFloat propS = Except.ok pq)
    (hdone : done fd ⟨sm, p0 :: rest⟩ = Except.ok out) :
    out.click = pyRound cq ∧ out.propensity = pq ∧
    ∀ (rest2 : List String) (out2 : Sample),
      done fd ⟨sm, p0 :: rest2⟩ = Except.ok out2 →
      out2.click = out.click ∧ out2.propensity = out.propensity := by
  have key : ∀ (r : List String) (o : Sample),
      done fd ⟨sm, p0 :: r⟩ = Except.ok o →
      o.click = pyRound cq ∧ o.propensity = pq := by
    intro r o h
    simp only [done, hsp, hsc, hcq, hpq] at h
    cases hfv : features_to_vector fd
        (lastPart sm '|' ++ (" ") ++ feats) with
    | error e => rw [hfv] at h; simp at h
    | ok fv =>
      rw [hfv] at h
      cases hrv : restVecs fd (lastPart sm '|') r with
      | error e => rw [hrv] at h; simp at h
      | ok vs =>
        rw [hrv] at h
        simp only [Except.ok.injEq] at h
        subst h
        exact ⟨rfl, rfl⟩

  obtain ⟨h1, h2⟩ := key rest out hdone
  refine ⟨h1, h2, fun rest2 out2 h2d => ?_⟩
  obtain ⟨h3, h4⟩ := key rest2 out2 h2d
  rw [h1, h2, h3, h4]
  exact ⟨rfl, rfl⟩

/-- C8, instantiated: the session parsed from c2lines2 carries
click = round(1.0) and propensity = 0.5 from the first (only) product's
score field. -/
theorem first_product_score_determines_labels_witness :
    c2sample.click = pyRound 1 ∧ c2sample.propensity = 1 / 2 :=
  ⟨(first_product_score_determines_labels (fun _ => none) ("shared s")
      ("l:1.0:0.5|1:3") [] ("l:1.0:0.5") ("1:3") ("l") ("1.0") ("0.5")
      1 (1 / 2) c2sample (by decide) (by decide)
      (by simp [pyFloat, parseDigits, splitOnCharAux] <;> norm_num)
      (by simp [pyFloat, parseDigits, splitOnCharAux] <;> norm_num)
      (by simp [done, c2sample, lastPart, pySplitSep, splitOnCharAux,
        two, three, pyFloat, parseDigits, features_to_vector, pySplit,
        vecFold, featureStep, numericStep, categoricalStep, strContains,
        pySet, pyInt, restVecs, pyRound]; norm_num)).1,
   (first_product_score_determines_labels (fun _ => none) ("shared s")
      ("l:1.0:0.5|1:3") [] ("l:1.0:0.5") ("1:3") ("l") ("1.0") ("0.5")
      1 (1 / 2) c2sample (by decide) (by decide)
      (by simp [pyFloat, parseDigits, splitOnCharAux] <;> norm_num)
      (by simp [pyFloat, parseDigits, splitOnCharAux] <;> norm_num)
      (by simp [done, c2sample, lastPart, pySplitSep, splitOnCharAux,
        two, three, pyFloat, parseDigits, features_to_vector, pySplit,
        vecFold, featureStep, numericStep, categoricalStep, strContains,
        pySet, pyInt, restVecs, pyRound]; norm_num)).2.1⟩

theorem countMarkers_cons (l : String) (ls : List String) :
    countMarkers (l :: ls) =
      (if strContainsSub (strTrim l) ("shared") = true then 1 else 0) +
        countMarkers ls := by
  simp only [countMarkers, List.filter_cons]
  split_ifs <;> simp <;> omega

theorem parseLoop_length (fd : FeatureDict) (lines : List String) :
    ∀ (i : ℕ) (cur : Option PendingSample) (acc out : List Sample),
      parseLoop fd (-1) 0 lines i cur acc = Except.ok out →
      out.length = acc.length +
        (countMarkers lines - (if cur.isSome then 0 else 1)) := by
  induction lines with
  | nil =>
    intro i cur acc out h
    rw [parseLoop] at h
    simp only [Except.ok.injEq] at h
    subst h
    simp [countMarkers]
  | cons line rest ih =>
    intro i cur acc out h
    rw [parseLoop.eq_def] at h
    simp only [] at h
    rw [if_neg (by omega : ¬ ((i : ℤ) < 0)),
      if_neg (by simp : ¬ ((-1 : ℤ) ≠ -1 ∧ (-1 : ℤ) ≤ (i : ℤ)))] at h
    rw [countMarkers_cons]
    by_cases hb : strTrim line = ("")
    · rw [if_pos hb] at h
      rw [hb, if_neg (by decide)]
      simpa using ih (i + 1) cur acc out h
    · rw [if_neg hb] at h
      by_cases hm : strContainsSub (strTrim line) ("shared") = true
      · rw [if_pos hm] at h
        rw [if_pos hm]
        cases cur with
        | some s =>
          simp only [] at h
          cases hd : done fd s with
          | error e => rw [hd] at h; simp at h
          | ok d =>
            rw [hd] at h
            have := ih (i + 1) (some ⟨strTrim line, []⟩) (d :: acc) out h
            simp at this ⊢ <;> omega
        | none =>
          simp only [] at h
          have := ih (i + 1) (some ⟨strTrim line, []⟩) acc out h
          simp at this ⊢ <;> omega
      · rw [if_neg hm] at h
        rw [if_neg hm]
        cases cur with
        | some s =>
          simp only [] at h
          have := ih (i + 1) (some ⟨s.summary, s.products ++ [strTrim line]⟩)
            acc out h
          simp at this ⊢ <;> omega
        | none =>
          simp only [] at h
          have := ih (i + 1) none acc out h
          simp at this ⊢ <;> omega

/-- C2 counterexample: a stream with one boundary marker and one
product line and no trailing marker parses to the empty session list —
the pending session is dropped, where the claim promises one emitted
session per marker with the last pending session finalized. -/
theorem parser_drops_pending_counterexample :
    parseLines (fun _ => none) c2lines (-1) 0 = Except.ok [] ∧
    countMarkers c2lines = 1 := by
  constructor
  · decide
  · decide

/-- C2 amended: over a full scan (no cutoff, start 0), the parser emits
one finalized session per boundary marker except the last one: the
session pending when the stream ends is dropped, so a successful parse
returns exactly (number of boundary markers) - 1 sessions. -/
theorem parser_drops_pending_last (fd : FeatureDict) (lines : List String)
    (out : List Sample)
    (h : parseLines fd lines (-1) 0 = Except.ok out) :
    out.length = countMarkers lines - 1 := by
  simpa using parseLoop_length fd lines 0 none [] out h

/-- C2 amended, instantiated: two markers, one emitted session. -/
theorem parser_drops_pending_last_witness :
    ([c2sample] : List Sample).length = countMarkers c2lines2 - 1 :=
  parser_drops_pending_last (fun _ => none) c2lines2 [c2sample]
    (by simp [parseLines, parseLoop, c2lines2, strTrim, strContainsSub,
      done, c2sample, lastPart, pySplitSep, splitOnCharAux, two, three,
      pyFloat, parseDigits, features_to_vector, pySplit, vecFold,
      featureStep, numericStep, categoricalStep, strContains, pySet,
      pyInt, restVecs, pyRound]; norm_num)

/-- C7: when the memoized artifact for a (path, cutoff) key was written
by a prior load of the same key (cache miss then parse) and the file is
unchanged, a reload finds the artifact and returns a session list equal
to the fresh parse of the same source lines with the same cutoff. -/
theorem memoized_load_matches_fresh (store store2 : PickleStore)
    (files : String → List String) (fd : FeatureDict) (path : String)
    (stop start : ℤ) (ss : List Sample)
    (hmiss : lookupStore store (path, stop) = none)
    (hload : criteo_load store files fd path stop start =
      Except.ok (ss, store2)) :
    lookupStore store2 (path, stop) = some ss ∧
    criteo_load store2 files fd path stop start =
      Except.ok (ss, store2) ∧
    parseLines fd (files path) stop start = Except.ok ss := by
  rw [criteo_load, hmiss] at hload
  cases hp : parseLines fd (files path) stop start with
  | error e => rw [hp] at hload; simp at hload
  | ok ss1 =>
    rw [hp] at hload
    simp only [Except.ok.injEq, Prod.mk.injEq] at hload
    obtain ⟨h1, h2⟩ := hload
    subst h1
    subst h2
    refine ⟨by simp [lookupStore], ?_, rfl⟩
    rw [criteo_load]
    simp [lookupStore]

/-- C7, instantiated: after a first load of (train, -1) filled the
store, a reload returns the fresh parse's session list. -/
theorem memoized_load_matches_fresh_witness :
    lookupStore [((("train"), (-1 : ℤ)), [c2sample])]
        ((("train"), (-1 : ℤ))) = some [c2sample] ∧
    criteo_load [((("train"), (-1 : ℤ)), [c2sample])] c7files
        (fun _ => none) ("train") (-1) 0 =
      Except.ok ([c2sample], [((("train"), (-1 : ℤ)), [c2sample])]) ∧
    parseLines (fun _ => none) (c7files ("train")) (-1) 0 =
      Except.ok [c2sample] :=
  memoized_load_matches_fresh [] [((("train"), (-1 : ℤ)), [c2sample])]
    c7files (fun _ => none) ("train") (-1) 0 [c2sample] rfl
    (by
      have hp : parseLines (fun _ => none) (c7files ("train")) (-1) 0 =
          Except.ok [c2sample] := by
        simp [c7files, parseLines, parseLoop, c2lines2, strTrim,
          strContainsSub, done, c2sample, lastPart, pySplitSep,
          splitOnCharAux, two, three, pyFloat, parseDigits,
          features_to_vector, pySplit, vecFold, featureStep,
          numericStep, categoricalStep, strContains, pySet, pyInt,
          restVecs, pyRound]
        norm_num
      rw [criteo_load]
      simp only [lookupStore]
      rw [hp])

theorem chunks_length_le {α : Type} (B : ℕ) (l : List α) :
    ∀ b ∈ chunks B l, b.length ≤ B := by
  rw [chunks]
  generalize l.length = fuel
  induction fuel generalizing l with
  | zero => cases l <;> simp [chunksAux]
  | succ fuel ih =>
    cases l with
    | nil => simp [chunksAux]
    | cons a t =>
      intro b hb
      rw [chunksAux] at hb
      rcases List.mem_cons.mp hb with h | h
      · subst h
        simpa using List.length_take_le B (a :: t)
      · exact ih ((a :: t).drop B) b h

theorem chunks_subset {α : Type} (B : ℕ) (l : List α) :
    ∀ b ∈ chunks B l, ∀ x ∈ b, x ∈ l := by
  rw [chunks]
  generalize l.length = fuel
  induction fuel generalizing l with
  | zero => cases l <;> simp [chunksAux]
  | succ fuel ih =>
    cases l with
    | nil => simp [chunksAux]
    | cons a t =>
      intro b hb x hx
      rw [chunksAux] at hb
      rcases List.mem_cons.mp hb with h | h
      · subst h
        exact List.take_subset B (a :: t) hx
      · exact List.drop_subset B (a :: t) (ih ((a :: t).drop B) b h x hx)

theorem chunksAux_flatten {α : Type} (B : ℕ) (hB : 0 < B) :
    ∀ (fuel : ℕ) (l : List α), l.length ≤ fuel →
      (chunksAux B fuel l).flatten = l := by
  intro fuel
  induction fuel with
  | zero =>
    intro l hl
    cases l with
    | nil => simp [chunksAux]
    | cons a t => simp at hl
  | succ fuel ih =>
    intro l hl
    cases l with
    | nil => simp [chunksAux]
    | cons a t =>
      rw [chunksAux, List.flatten_cons,
        ih ((a :: t).drop B)
          (by rw [List.length_drop]
              simp only [List.length_cons] at hl ⊢
              omega)]
      exact List.take_append_drop B (a :: t)

theorem chunks_flatten {α : Type} (B : ℕ) (hB : 0 < B) (l : List α) :
    (chunks B l).flatten = l :=
  chunksAux_flatten B hB l.length l le_rfl

theorem insertGroup_keyed (gs : List (ℕ × List Sample)) (k : ℕ) (s : Sample)
    (hk : s.products.length = k)
    (hgs : ∀ g ∈ gs, ∀ t ∈ g.2, t.products.length = g.1) :
    ∀ g ∈ insertGroup gs k s, ∀ t ∈ g.2, t.products.length = g.1 := by
  induction gs with
  | nil =>
    intro g hg t ht
    simp only [insertGroup, List.mem_singleton] at hg
    subst hg
    simp only [List.mem_singleton] at ht
    subst ht
    exact hk
  | cons g0 rest ih =>
    obtain ⟨k0, l⟩ := g0
    intro g hg t ht
    rw [insertGroup] at hg
    by_cases he : k0 = k
    · rw [if_pos he] at hg
      rcases List.mem_cons.mp hg with h | h
      · subst h
        simp only [List.mem_append, List.mem_singleton] at ht
        rcases ht with h1 | h1
        · exact hgs (k0, l) (by simp) t h1
        · subst h1
          rw [hk, he]
      · exact hgs g (by simp [h]) t ht
    · rw [if_neg he] at hg
      rcases List.mem_cons.mp hg with h | h
      · subst h
        exact hgs (k0, l) (by simp) t ht
      · exact ih (fun g2 hg2 => hgs g2 (by simp [hg2])) g h t ht

theorem insertGroup_flat (gs : List (ℕ × List Sample)) (k : ℕ) (s : Sample) :
    (flatGroups (insertGroup gs k s)).Perm (s :: flatGroups gs) := by
  induction gs with
  | nil => simp [insertGroup, flatGroups]
  | cons g0 rest ih =>
    obtain ⟨k0, l⟩ := g0
    rw [insertGroup]
    by_cases he : k0 = k
    · rw [if_pos he]
      simp only [flatGroups, List.map_cons, List.flatten_cons,
        List.append_assoc, List.singleton_append]
      exact List.perm_middle
    · rw [if_neg he]
      simp only [flatGroups, List.map_cons, List.flatten_cons]
      exact (ih.append_left l).trans List.perm_middle

theorem groupBy_flat_perm (ds : List Sample) :
    (flatGroups (groupByPoolSize ds)).Perm ds := by
  suffices h : ∀ gs : List (ℕ × List Sample),
      (flatGroups (ds.foldl
        (fun a s => insertGroup a s.products.length s) gs)).Perm
        (flatGroups gs ++ ds) by
    simpa [flatGroups] using h []
  induction ds with
  | nil => intro gs; simp
  | cons d rest ih =>
    intro gs
    rw [List.foldl_cons]
    refine (ih (insertGroup gs d.products.length d)).trans ?_
    refine ((insertGroup_flat gs d.products.length d).append_right
      rest).trans ?_
    simpa using List.perm_middle.symm

theorem groupBy_keyed (ds : List Sample) :
    ∀ g ∈ groupByPoolSize ds, ∀ t ∈ g.2, t.products.length = g.1 := by
  suffices h : ∀ gs : List (ℕ × List Sample),
      (∀ g ∈ gs, ∀ t ∈ g.2, t.products.length = g.1) →
      ∀ g ∈ ds.foldl (fun a s => insertGroup a s.products.length s) gs,
        ∀ t ∈ g.2, t.products.length = g.1 by
    exact h [] (by simp)
  induction ds with
  | nil => intro gs hgs; simpa using hgs
  | cons d rest ih =>
    intro gs hgs
    rw [List.foldl_cons]
    exact ih _ (insertGroup_keyed gs _ d rfl hgs)

theorem forall2_flat_perm (gs hs : List (ℕ × List Sample))
    (h : List.Forall₂ (fun g g2 => g.1 = g2.1 ∧ g.2.Perm g2.2) gs hs) :
    (flatGroups gs).Perm (flatGroups hs) := by
  induction h with
  | nil => simp [flatGroups]
  | cons hgh _ ih =>
    simp only [flatGroups, List.map_cons, List.flatten_cons]
    exact hgh.2.append ih

theorem forall2_keyed (gs hs : List (ℕ × List Sample))
    (h : List.Forall₂ (fun g g2 => g.1 = g2.1 ∧ g.2.Perm g2.2) gs hs) :
    (∀ g ∈ gs, ∀ t ∈ g.2, t.products.length = g.1) →
    ∀ g ∈ hs, ∀ t ∈ g.2, t.products.length = g.1 := by
  induction h with
  | nil => intro _; simp
  | cons hgh htail ih =>
    intro hk g hg t ht
    rcases List.mem_cons.mp hg with h1 | h1
    · subst h1
      rw [← hgh.1]
      exact hk _ (by simp) t (hgh.2.mem_iff.mpr ht)
    · exact ih (fun g2 hg2 => hk g2 (by simp [hg2])) g h1 t ht

theorem epochBatches_flatten (B : ℕ) (hB : 0 < B)
    (shuffled : List (ℕ × List Sample)) :
    (epochBatches B shuffled).flatten = flatGroups shuffled := by
  induction shuffled with
  | nil => simp [epochBatches, flatGroups]
  | cons g rest ih =>
    simp only [epochBatches, flatGroups, List.map_cons, List.flatten_cons,
      List.flatten_append] at ih ⊢
    rw [chunks_flatten B hB g.2, ih]

theorem epochBatches_mem (B : ℕ) (shuffled : List (ℕ × List Sample))
    (b : List Sample) (hb : b ∈ epochBatches B shuffled) :
    ∃ g ∈ shuffled, b ∈ chunks B g.2 := by
  simp only [epochBatches, List.mem_flatten, List.mem_map] at hb
  obtain ⟨bl, ⟨g, hg, rfl⟩, hbbl⟩ := hb
  exact ⟨g, hg, hbbl⟩

/-- C5: in one epoch pass of the batch iterator with batch size B ≥ 1 —
the per-group shuffles modelled as arbitrary permutations of the
pool-size groups — every emitted batch holds at most B sessions, all
sessions of one batch share the same candidate-pool size, and the
sessions of all emitted batches together are a permutation of the full
dataset: no duplication and no omission. -/
theorem batch_iterator_partition (ds : List Sample) (B : ℕ)
    (shuffled : List (ℕ × List Sample)) (hB : 0 < B)
    (hsh : List.Forall₂ (fun g g2 => g.1 = g2.1 ∧ g.2.Perm g2.2)
      (groupByPoolSize ds) shuffled) :
    (∀ b ∈ epochBatches B shuffled, b.length ≤ B ∧
      ∀ s ∈ b, ∀ t ∈ b, s.products.length = t.products.length) ∧
    ((epochBatches B shuffled).flatten).Perm ds := by
  have hkey : ∀ g ∈ shuffled, ∀ t ∈ g.2, t.products.length = g.1 :=
    forall2_keyed _ _ hsh (groupBy_keyed ds)
  constructor
  · intro b hb
    obtain ⟨g, hg, hbc⟩ := epochBatches_mem B shuffled b hb
    refine ⟨chunks_length_le B g.2 b hbc, fun s hs t ht => ?_⟩
    have hsg := chunks_subset B g.2 b hbc s hs
    have htg := chunks_subset B g.2 b hbc t ht
    rw [hkey g hg s hsg, hkey g hg t htg]
  · rw [epochBatches_flatten B hB shuffled]
    exact ((forall2_flat_perm _ _ hsh).symm).trans (groupBy_flat_perm ds)

/-- C5, instantiated: the three-session dataset with pool sizes 2, 3, 2
under identity shuffles and batch size 2. -/
theorem batch_iterator_partition_witness :
    ((epochBatches 2 (groupByPoolSize c5ds)).flatten).Perm c5ds :=
  (batch_iterator_partition c5ds 2 (groupByPoolSize c5ds) (by norm_num)
    (List.forall₂_same.mpr (fun g _ => ⟨rfl, List.Perm.refl g.2⟩))).2

end SimpleNN
